import Mathlib

/-!
Verification of the luna-kit ARK archive engine specification against the
source in `src/luna_kit/`.  Machine integers are modelled as `Nat` with
explicit reduction modulo `2 ^ 32` exactly where the Python code truncates
(every assignment to a `ctypes.c_uint32`); Python's arbitrary-precision
intermediate values are left untruncated, as in the source.
-/

/-- `2 ^ 32`, the modulus of every `c_uint32` assignment. -/
def U32 : Nat := 2 ^ 32

instance {ε α : Type} [DecidableEq ε] [DecidableEq α] :
    DecidableEq (Except ε α) := fun x y =>
  match x, y with
  | .ok a, .ok b =>
    if h : a = b then .isTrue (by rw [h]) else .isFalse (by simp [h])
  | .error a, .error b =>
    if h : a = b then .isTrue (by rw [h]) else .isFalse (by simp [h])
  | .ok _, .error _ => .isFalse (by simp)
  | .error _, .ok _ => .isFalse (by simp)

namespace xxtea

/-- `get_phdr_size` from `xxtea.py`: rounds a byte count up to the next
multiple of 4.  (`phdr_off &= ~3` clears the two low bits, that is
`phdr_off / 4 * 4` for a nonnegative Python int.) -/
def get_phdr_size (phdr_off : Nat) : Nat :=
  if phdr_off &&& 3 ≠ 0 then phdr_off / 4 * 4 + 4 else phdr_off

/-- The XXTEA round constant. -/
def DELTA : Nat := 0x9e3779b9

/-- The `MX()` closure shared verbatim by `encrypt` and `decrypt` in
`xxtea.py`: all inputs are current `c_uint32` values (`< 2 ^ 32`) but the
expression itself is evaluated with Python's unbounded integers, so
intermediates may exceed 32 bits; truncation happens only when the result
is combined into `v[p].value`. -/
def MX (key : List Nat) (y z sum p e : Nat) : Nat :=
  ((z >>> 5 ^^^ y <<< 2) + (y >>> 3 ^^^ z <<< 4)) ^^^
    ((sum ^^^ y) + (key.getD ((p &&& 3) ^^^ e) 0 ^^^ z))

/-- The specification's reference mixing value: the same formula evaluated
in unsigned 32-bit wrap-around arithmetic (every addition and left shift
reduced modulo `2 ^ 32`; right shifts are logical). -/
def MXref (key : List Nat) (y z sum p e : Nat) : Nat :=
  ((z >>> 5 ^^^ y <<< 2 % U32) + (y >>> 3 ^^^ z <<< 4 % U32)) % U32 ^^^
    ((sum ^^^ y) % U32 + (key.getD ((p &&& 3) ^^^ e) 0 ^^^ z) % U32) % U32

/-- Wrap-around subtraction: the value stored by `v[p].value -= MX()`,
where the minuend is a `c_uint32` value and the subtrahend an arbitrary
Python int. -/
def sub32 (a b : Nat) : Nat := (a + (U32 - b % U32)) % U32

/-- One assignment of the `encrypt` loops: `v[p].value += MX()` with
`y = v[(p+1) % n]` and `z = v[(p+n-1) % n]`, which are the values the
carried `y`/`z` registers hold when index `p` is processed (see
`encRound_eq_encPass`). -/
def encStep (key : List Nat) (sum : Nat) (v : List Nat) (p : Nat) : List Nat :=
  let n := v.length
  let e := (sum >>> 2) &&& 3
  let y := v.getD ((p + 1) % n) 0
  let z := v.getD ((p + n - 1) % n) 0
  v.set p ((v.getD p 0 + MX key y z sum p e) % U32)

/-- One assignment of the `decrypt` loops: `v[p].value -= MX()`, with the
same neighbour values. -/
def decStep (key : List Nat) (sum : Nat) (v : List Nat) (p : Nat) : List Nat :=
  let n := v.length
  let e := (sum >>> 2) &&& 3
  let y := v.getD ((p + 1) % n) 0
  let z := v.getD ((p + n - 1) % n) 0
  v.set p (sub32 (v.getD p 0) (MX key y z sum p e))

/-- Body of `encrypt`'s inner `for p in range(0, n - 1)` loop, carrying the
`z` register explicitly: `y = v[p + 1]; v[p] += MX(); z = v[p]`.
The state is the word array together with the `z` register. -/
def encBody (key : List Nat) (sum e : Nat) (st : List Nat × Nat) (p : Nat) :
    List Nat × Nat :=
  let v := st.1
  let z := st.2
  let y := v.getD (p + 1) 0
  let v' := v.set p ((v.getD p 0 + MX key y z sum p e) % U32)
  (v', v'.getD p 0)

/-- One iteration of `encrypt`'s `while (rounds)` loop after `sum += DELTA`
has already produced `sum`: the inner loop over `p = 0 .. n-2` followed by
the wrap-up step `p = n - 1`.  On entry to every round the carried `z`
register holds `v[n - 1]` (it is assigned from `v[n - 1]` both before the
loop and at the end of each round). -/
def encRound (key : List Nat) (sum : Nat) (v : List Nat) : List Nat :=
  let n := v.length
  let e := (sum >>> 2) &&& 3
  let st := (List.range (n - 1)).foldl (encBody key sum e) (v, v.getD (n - 1) 0)
  let v1 := st.1
  let y := v1.getD 0 0
  v1.set (n - 1) ((v1.getD (n - 1) 0 + MX key y st.2 sum (n - 1) e) % U32)

/-- `encrypt`'s round loop: with `r` rounds left and current `sum`, first
`sum += DELTA` (a `c_uint32` assignment), then the round. -/
def encRounds (key : List Nat) : Nat → Nat → List Nat → List Nat
  | 0, _, v => v
  | r + 1, sum, v =>
    let sum1 := (sum + DELTA) % U32
    encRounds key r sum1 (encRound key sum1 v)

/-- Body of `decrypt`'s inner `for p in range(n - 1, 0, -1)` loop, carrying
the `y` register: `z = v[p - 1]; v[p] -= MX(); y = v[p]`. -/
def decBody (key : List Nat) (sum e : Nat) (st : List Nat × Nat) (p : Nat) :
    List Nat × Nat :=
  let v := st.1
  let y := st.2
  let z := v.getD (p - 1) 0
  let v' := v.set p (sub32 (v.getD p 0) (MX key y z sum p e))
  (v', v'.getD p 0)

/-- One iteration of `decrypt`'s `while (rounds)` loop at the current
`sum`: the inner loop over `p = n-1 .. 1` followed by the wrap-up step
`p = 0` (`z = v[n - 1]; v[0] -= MX(); y = v[0]`).  On entry to every round
the carried `y` register holds `v[0]`. -/
def decRound (key : List Nat) (sum : Nat) (v : List Nat) : List Nat :=
  let n := v.length
  let e := (sum >>> 2) &&& 3
  let st := ((List.range (n - 1)).reverse).foldl
    (fun st q => decBody key sum e st (q + 1)) (v, v.getD 0 0)
  let v1 := st.1
  let z := v1.getD (n - 1) 0
  v1.set 0 (sub32 (v1.getD 0 0) (MX key st.2 z sum 0 e))

/-- `decrypt`'s round loop: the round is processed at the current `sum`,
then `sum -= DELTA`. -/
def decRounds (key : List Nat) : Nat → Nat → List Nat → List Nat
  | 0, _, v => v
  | r + 1, sum, v =>
    decRounds key r (sub32 sum DELTA) (decRound key sum v)

/-- `struct.unpack(f'{n}I', src)`: little-endian 32-bit words from bytes
(the byte count must be a multiple of 4, which the callers establish). -/
def bytesToWords : List Nat → List Nat
  | b0 :: b1 :: b2 :: b3 :: rest =>
    (b0 + 256 * b1 + 65536 * b2 + 16777216 * b3) :: bytesToWords rest
  | _ => []

/-- `b''.join(bytes(x) for x in v)`: each `c_uint32` serialises to 4
little-endian bytes. -/
def wordsToBytes : List Nat → List Nat
  | [] => []
  | w :: rest =>
    w % 256 :: w / 256 % 256 :: w / 65536 % 256 :: w / 16777216 % 256 ::
      wordsToBytes rest

/-- Python-level failures of `encrypt`/`decrypt` in `xxtea.py`. -/
inductive XxteaErr where
  | structError
  | zeroDivision
  deriving DecidableEq, Repr

/-- `decrypt(src, key)` from `xxtea.py`.  `n = get_phdr_size(len(src)) // 4`;
`struct.unpack` fails unless `len(src) == 4 * n` (the function does not pad),
and `52 // n` fails when `n = 0`.  The key words pass through
`c_uint32(k)`, i.e. are truncated modulo `2 ^ 32`. -/
def decrypt (src : List Nat) (key : List Nat) : Except XxteaErr (List Nat) :=
  let n := get_phdr_size src.length / 4
  if src.length ≠ 4 * n then .error .structError
  else if n = 0 then .error .zeroDivision
  else
    let k := key.map (· % U32)
    let rounds := 6 + 52 / n
    let sum0 := rounds * DELTA % U32
    .ok (wordsToBytes (decRounds k rounds sum0 (bytesToWords src)))

/-- `encrypt(src, key)` from `xxtea.py`: zero-pads `src` to a multiple of 4
bytes when needed, then runs the rounds with `sum` starting at 0. -/
def encrypt (src : List Nat) (key : List Nat) : Except XxteaErr (List Nat) :=
  let n := get_phdr_size src.length / 4
  let src := if n ≠ src.length / 4
    then src ++ List.replicate (4 - src.length % 4) 0 else src
  if n = 0 then .error .zeroDivision
  else
    let k := key.map (· % U32)
    .ok (wordsToBytes (encRounds k (6 + 52 / n) 0 (bytesToWords src)))

end xxtea

namespace arkfn

/-- The parsed representation of an `.ark` filename
(`ark_filename.py`, class `ARKFilename`). -/
structure ARKFilename where
  priority : Int
  tag : String
  encoding : String
  format : String
  calibre : String
  dlc : Bool
  dlc_tag : String
  deriving DecidableEq, Repr

def CALIBRES : List String := ["common", "low", "veryhigh"]

def ENCODINGS : List String := ["astc"]

def FORMATS : List String := ["pvr"]

def TAG_PRIORITY : List String :=
  ["startup", "mlpextragui", "mlpextra", "mlpextra2", "mlpdata"]

def CALIBRE_PRIORITY : List String := ["all", "low", "high", "veryhigh"]

/-- `device_calibre`: the dictionary lookup with default `'high'`. -/
def device_calibre (f : ARKFilename) : String :=
  if f.calibre = "common" then "all"
  else if f.calibre = "low" then "low"
  else if f.calibre = "veryhigh" then "veryhigh"
  else "high"

/-- `get_priority`: index in the priority list, `-1` when absent. -/
def get_priority (value : String) (priority_list : List String) : Int :=
  match priority_list.indexOf? value with
  | some i => (i : Int)
  | none => -1

/-- Python booleans compare as the integers 0 and 1. -/
def boolVal (b : Bool) : Nat := if b then 1 else 0

/-- `ARKFilename.__lt__`: the early-return comparison chain, with the
`dlc_tag` comparison guarded by `self.dlc and value.dlc`. -/
def lt (x y : ARKFilename) : Bool :=
  if x.dlc ≠ y.dlc then decide (boolVal x.dlc < boolVal y.dlc)
  else if x.priority ≠ y.priority then decide (x.priority < y.priority)
  else if get_priority x.tag TAG_PRIORITY ≠ get_priority y.tag TAG_PRIORITY
    then decide (get_priority x.tag TAG_PRIORITY <
      get_priority y.tag TAG_PRIORITY)
  else if x.dlc = true ∧ y.dlc = true ∧ x.dlc_tag ≠ y.dlc_tag then
    decide (x.dlc_tag < y.dlc_tag)
  else if x.encoding ≠ y.encoding then decide (x.encoding < y.encoding)
  else if x.format ≠ y.format then decide (x.format > y.format)
  else if get_priority (device_calibre x) CALIBRE_PRIORITY ≠
      get_priority (device_calibre y) CALIBRE_PRIORITY then
    decide (get_priority (device_calibre x) CALIBRE_PRIORITY <
      get_priority (device_calibre y) CALIBRE_PRIORITY)
  else false

/-- `ARKFilename.__gt__`: the mirrored chain (note the reversed `format`
comparison, as in `__lt__`). -/
def gt (x y : ARKFilename) : Bool :=
  if x.dlc ≠ y.dlc then decide (boolVal y.dlc < boolVal x.dlc)
  else if x.priority ≠ y.priority then decide (y.priority < x.priority)
  else if get_priority x.tag TAG_PRIORITY ≠ get_priority y.tag TAG_PRIORITY
    then decide (get_priority y.tag TAG_PRIORITY <
      get_priority x.tag TAG_PRIORITY)
  else if x.dlc = true ∧ y.dlc = true ∧ x.dlc_tag ≠ y.dlc_tag then
    decide (y.dlc_tag < x.dlc_tag)
  else if x.encoding ≠ y.encoding then decide (y.encoding < x.encoding)
  else if x.format ≠ y.format then decide (y.format > x.format)
  else if get_priority (device_calibre x) CALIBRE_PRIORITY ≠
      get_priority (device_calibre y) CALIBRE_PRIORITY then
    decide (get_priority (device_calibre y) CALIBRE_PRIORITY <
      get_priority (device_calibre x) CALIBRE_PRIORITY)
  else false

/-- `ARKFilename.__eq__`: field-by-field equality of all seven parsed
attributes. -/
def eq (x y : ARKFilename) : Bool :=
  decide (x.priority = y.priority ∧ x.tag = y.tag ∧
    x.encoding = y.encoding ∧ x.format = y.format ∧ x.calibre = y.calibre ∧
    x.dlc = y.dlc ∧ x.dlc_tag = y.dlc_tag)

/-- Shape invariant of every record `parse_filename` can produce: the
`calibre`/`format`/`encoding` slots only ever receive members of the
recognised token lists, and `dlc_tag` is set only on the `softdlc`
branch, which also sets `dlc`. -/
def Reachable (f : ARKFilename) : Prop :=
  (f.calibre = "" ∨ f.calibre ∈ CALIBRES) ∧
    (f.encoding = "" ∨ f.encoding ∈ ENCODINGS) ∧
    (f.format = "" ∨ f.format ∈ FORMATS) ∧
    (f.dlc = false → f.dlc_tag = "")

instance (f : ARKFilename) : Decidable (Reachable f) := by
  unfold Reachable
  infer_instance

/-- The `dlc_tag` key actually compared: it participates only when both
sides are DLC entries, and the `dlc` flags are equal whenever the chain
reaches it. -/
def dlcKey (f : ARKFilename) : String := if f.dlc then f.dlc_tag else ""

def tagRank (f : ARKFilename) : Int := get_priority f.tag TAG_PRIORITY

def calRank (f : ARKFilename) : Int :=
  get_priority (device_calibre f) CALIBRE_PRIORITY

/-- Proof apparatus: the lexicographic sort key realising `__lt__` (the
`format` component is order-reversed). -/
def ltKey (f : ARKFilename) :
    Lex (Nat × Lex (Int × Lex (Int × Lex (String × Lex (String ×
      Lex (Stringᵒᵈ × Int)))))) :=
  toLex (boolVal f.dlc, toLex (f.priority, toLex (tagRank f,
    toLex (dlcKey f, toLex (f.encoding,
      toLex (OrderDual.toDual f.format, calRank f))))))

end arkfn

namespace ark

/-- Python-level failures observable through the modelled `ark.py` code
paths. -/
inductive PyErr where
  /-- A `TypeError` from calling a function with the wrong number of
  positional arguments: `ark.py` invokes
  `xxtea.decrypt(metadata, metadata_size // 4, self.KEY)` (three
  positional arguments) while `xxtea.decrypt(src, key)` takes two. -/
  | typeError
  /-- An `UnboundLocalError`: a local variable referenced before
  assignment (the f-string of `_read_header`'s unknown-version `raise`
  mentions the local `header`, which is only bound further down). -/
  | unboundLocal (name : String)
  /-- A `ValueError` (for example a negative seek on a `BytesIO`). -/
  | valueError
  /-- A `struct.error` from unpacking a buffer of the wrong size. -/
  | structError
  /-- An `IndexError` from indexing an empty list (`self._files[0]`,
  `self._files[-1]`). -/
  | indexError
  deriving DecidableEq, Repr

/-- Little-endian `u32` at a byte offset (the buffer is long enough at
every use below). -/
def leU32At (b : List Nat) (off : Nat) : Nat :=
  b.getD off 0 + 256 * b.getD (off + 1) 0 + 65536 * b.getD (off + 2) 0 +
    16777216 * b.getD (off + 3) 0

/-- The logical `Header` built by `ARK._read_header`
(`metadata_length` is an unsigned field for v3/v4 but a Python difference
for v1, hence `Int`). -/
structure Header where
  version : Nat
  file_count : Nat
  metadata_offset : Nat
  metadata_length : Int
  unknown : List Nat
  deriving DecidableEq, Repr

/-- `dcs.get_struct_size(_HEADER_STRUCTS[version])`: 12 bytes for v1,
32 bytes for v3/v4. -/
def headerStructSize (version : Nat) : Nat := if version = 1 then 12 else 32

/-- `ARK._read_header`.  The handle is at position 0 (`read` seeks there
first).  It reads the version word at offset 8, takes the file size as
`tell()` after `seek(-1, SEEK_END)` (i.e. `len - 1`), and re-reads the
full header variant.  On a version outside `{1, 3, 4}` the
`raise ValueError(f'Unknown file version {header.ark_version}')` line
evaluates its f-string first, and `header` is a local that has not been
assigned yet at that point, so the actual failure is an
`UnboundLocalError` for `header`, not the `ValueError`. -/
def readHeader (file : List Nat) : Except PyErr Header :=
  if file.length < 12 then .error .structError
  else
    let version := leU32At file 8
    let filesize : Int := (file.length : Int) - 1
    if version = 1 then
      .ok { version := 1, file_count := leU32At file 0,
            metadata_offset := leU32At file 4,
            metadata_length := filesize - (leU32At file 4 : Int),
            unknown := [] }
    else if version = 3 ∨ version = 4 then
      if file.length < 32 then .error .structError
      else
        .ok { version := version, file_count := leU32At file 0,
              metadata_offset := leU32At file 4,
              metadata_length := (leU32At file 12 : Int),
              unknown := (file.drop 16).take 16 }
    else .error (.unboundLocal "header")

/-- `ARK.read` = `_read_header` followed by `_read_metadata`.
`_read_metadata` computes the metadata slice and then calls
`xxtea.decrypt(metadata, metadata_size // 4, self.KEY)` — three positional
arguments to `xxtea.decrypt(src, key)`, which accepts two — so every
successful header parse is followed by a `TypeError` before any record is
decoded.  (None of the intermediate statements — the seeks, the reads and
the size arithmetic — can fail first on a parsed header.) -/
def readArchive (file : List Nat) : Except PyErr Header :=
  match readHeader file with
  | .error e => .error e
  | .ok header =>
    let metadata_size :=
      xxtea.get_phdr_size (file.length - header.metadata_offset)
    let _metadata := (file.drop header.metadata_offset).take metadata_size
    .error .typeError

/-- The logical `FileMetadata` record of `ark.py` (`unknown1`/`unknown2`
are `None` for v1/v3 records, `file_location` is `-1` on a freshly packed
file). -/
structure FileMetadata where
  filename : String
  pathname : String
  file_location : Int
  original_filesize : Nat
  compressed_size : Nat
  encrypted_size : Nat
  timestamp : Nat
  md5sum : List Nat
  unknown1 : Option Nat
  unknown2 : Option (List Nat)
  priority : Nat
  version : Nat
  deriving DecidableEq, Repr

/-- `FileMetadata.actual_size`: `encrypted_size or compressed_size`. -/
def actual_size (m : FileMetadata) : Nat :=
  if m.encrypted_size ≠ 0 then m.encrypted_size else m.compressed_size

/-- `os.path.join(pathname, filename)` for POSIX-style components
(`b.startswith('/')` and `a.endswith('/')` are phrased over the character
lists so that they evaluate by reduction). -/
def osJoin (a b : String) : String :=
  if b.data.head? = some '/' then b
  else if a = "" then b
  else if a.data.getLast? = some '/' then a ++ b
  else a ++ "/" ++ b

/-- `FileMetadata.full_path`. -/
def full_path (m : FileMetadata) : String := osJoin m.pathname m.filename

/-- The warning channel of `warnings.warn` in `_get_file_data`. -/
inductive ArkWarning where
  /-- `'file "…" hash does not match "…"'` -/
  | integrity
  deriving DecidableEq, Repr

/-- The `ARKFile` value returned by `read_file`/`_get_file_data`. -/
structure ARKFileOut where
  fullpath : String
  data : List Nat
  encrypted : Bool
  compressed : Bool
  priority : Nat
  date : Option Nat
  deriving DecidableEq, Repr

/-- `FileMetadata.date`: a timestamp for v1/v4, `None` for v3. -/
def metaDate (m : FileMetadata) : Option Nat :=
  if m.version = 1 ∨ m.version = 4 then some m.timestamp else none

/-- `ARK._get_file_data` (the body of `read_file`).  The external
decompressors and hash are taken as parameters: `md5f` the MD5 digest,
`zlibD` `zlib.decompress`, `zstdD` `ZstdDecompressor.decompress` with its
`max_output_size` argument.  For an entry with `encrypted_size != 0` the
code calls `xxtea.decrypt(file_data, metadata.encrypted_size // 4,
self.KEY)` — three positional arguments to a two-parameter function — so
it raises `TypeError` before anything else.  The recorded `md5sum` is
never `None` for v1/v3/v4 records, so the `is not None` guard always
holds. -/
def getFileData (md5f zlibD : List Nat → List Nat)
    (zstdD : List Nat → Nat → List Nat)
    (version : Nat) (metadata : FileMetadata) (file : List Nat) :
    Except PyErr (List ArkWarning × ARKFileOut) :=
  let file_data := (file.drop metadata.file_location.toNat).take
    (if metadata.encrypted_size ≠ 0 then metadata.encrypted_size
     else metadata.compressed_size)
  if metadata.encrypted_size ≠ 0 then .error .typeError
  else
    let compressed := metadata.compressed_size ≠ metadata.original_filesize
    let file_data :=
      if metadata.compressed_size ≠ metadata.original_filesize then
        if version = 1 then zlibD file_data
        else if 3 ≤ version then zstdD file_data metadata.original_filesize
        else file_data
      else file_data
    let file_data := file_data.take metadata.original_filesize
    let warns := if md5f file_data ≠ metadata.md5sum
      then [ArkWarning.integrity] else []
    .ok (warns, { fullpath := osJoin metadata.pathname metadata.filename,
                  data := file_data, encrypted := false,
                  compressed := decide compressed,
                  priority := metadata.priority, date := metaDate metadata })

/-- In-memory mutable state of an `ARK` instance: the parsed header, the
directory, and the `__files_block` buffer. -/
structure ARKState where
  header : Header
  files : List FileMetadata
  filesBlock : List Nat
  deriving Repr

/-- `self._files.sort(key = metadata_by_file_location)`: a stable sort by
`file_location` (Python's sort is stable; `List.insertionSort` is the
stable sort of the library that evaluates by reduction). -/
def sortFiles (files : List FileMetadata) : List FileMetadata :=
  files.insertionSort (fun a b => a.file_location ≤ b.file_location)

/-- `ARK._get_file_block`: sorts the directory, then reads
`header.metadata_offset` bytes starting at the first entry's
`file_location` into `__files_block`.  `self._files[0]` raises
`IndexError` when the directory is empty; a negative seek target raises
`ValueError`.  Returns the new state and the file position after the
read. -/
def getFileBlock (st : ARKState) (file : List Nat) :
    Except PyErr (ARKState × Nat) :=
  let files := sortFiles st.files
  match files with
  | [] => .error .indexError
  | first :: _ =>
    if first.file_location < 0 then .error .valueError
    else
      let start := first.file_location.toNat
      let chunk := (file.drop start).take st.header.metadata_offset
      .ok ({ st with files := files, filesBlock := chunk },
        start + chunk.length)

/-- Writing `data` at position `pos` of a `BytesIO` whose current content
is `buf` (zero-filling any gap beyond the end). -/
def bytesIOWriteAt (buf : List Nat) (pos : Nat) (data : List Nat) :
    List Nat :=
  (buf.take pos ++ List.replicate (pos - buf.length) 0 ++ data) ++
    (buf.drop (pos + data.length))

/-- `ARK._write_file` up to (but not including) the final
`self.write(file)` call: the upsert of a packed payload into the
directory and the `__files_block` buffer.  `file` is the current content
of the backing stream; its position after `_get_file_block` is tracked
explicitly.  On an empty directory `_get_file_block` raises `IndexError`
(`self._files[0]`), and the append branch would raise the same on
`self._files[-1]`. -/
def writeFile (st : ARKState) (data : List Nat) (metadata : FileMetadata)
    (file : List Nat) : Except PyErr ARKState :=
  let st0 := { st with files := sortFiles st.files }
  match getFileBlock st0 file with
  | .error e => .error e
  | .ok (st1, filePos) =>
  let header_offset := headerStructSize st1.header.version
  let metadata :=
    if metadata.file_location < 0 then
      match st1.files.getLast? with
      | some last =>
        { metadata with file_location := last.file_location +
            (actual_size last : Int) }
      | none => { metadata with file_location := (header_offset : Int) }
    else metadata
  if ¬ st1.files.any (fun f => full_path f = full_path metadata) then
    match st1.files.getLast? with
    | none => .error .indexError
    | some last =>
      let metadata := { metadata with
        file_location := last.file_location + (actual_size last : Int) }
      if metadata.file_location < (header_offset : Int) then
        .error .valueError
      else
        let pos := (metadata.file_location - (header_offset : Int)).toNat
        let filesBlock := st1.filesBlock.take pos
        let filesBlock := bytesIOWriteAt filesBlock pos data
        .ok { st1 with
          files := st1.files ++ [metadata],
          filesBlock := filesBlock,
          header := { st1.header with
            metadata_offset := (metadata.file_location +
              (actual_size metadata : Int)).toNat } }
  else
    match st1.files.findIdx? (fun f => full_path f = full_path metadata) with
    | none => .error .indexError
    | some k =>
      let found := st1.files.getD k metadata
      let rest_start : Int := found.file_location + (actual_size found : Int)
      if rest_start < (header_offset : Int) then .error .valueError
      else
        let found' := { found with
          compressed_size := metadata.compressed_size,
          encrypted_size := metadata.encrypted_size,
          original_filesize := metadata.original_filesize,
          md5sum := metadata.md5sum,
          priority := metadata.priority,
          timestamp := metadata.timestamp,
          unknown1 := metadata.unknown1,
          unknown2 := metadata.unknown2 }
        if found.file_location < (header_offset : Int) then .error .valueError
        else
          let offset : Int :=
            ((file.length + data.length : Nat) : Int) - rest_start
          let files := (st1.files.set k found').mapIdx
            (fun i f => if k + 1 ≤ i then
              { f with file_location := f.file_location + offset } else f)
          .ok { st1 with files := files }

/-- `ARK.KEY`, the archive-default XXTEA key. -/
def KEY : List Nat := [0x3d5b2a34, 0x923fff10, 0x00e346a4, 0x0c74902b]

/-- The payload of a file being packed, as the term of external codec
operations applied to it (the codecs themselves are external libraries:
`zstandard.compress`, `zlib`, and the in-repo `xxtea.encrypt`). -/
inductive Payload where
  | raw (data : List Nat)
  | zstdCompress (level : Nat) (p : Payload)
  | zlibCompress (p : Payload)
  | xxteaEncrypt (key : List Nat) (p : Payload)
  deriving DecidableEq, Repr

/-- An in-memory `ARKFile` about to be packed. -/
structure ARKFileIn where
  fullpath : String
  data : List Nat
  compressed : Bool
  encrypted : Bool
  priority : Nat
  deriving DecidableEq, Repr

/-- The payload pipeline of `ARKFile.pack`: `result = self.data`; if
`self.compressed`, `result = zstandard.compress(result, 9)`; if
`self.encrypted`, `result = xxtea.encrypt(result, ARK.KEY)`.  There is no
version dispatch anywhere in `pack`. -/
def packPayload (f : ARKFileIn) : Payload :=
  let result := Payload.raw f.data
  let result := if f.compressed then Payload.zstdCompress 9 result
    else result
  if f.encrypted then Payload.xxteaEncrypt KEY result else result

/-- `ARK.add_file` calls `file.pack()`.  The archive's `header.version`
plays no part in the packing, which this definition makes explicit. -/
def addFilePayload (version : Nat) (f : ARKFileIn) : Payload :=
  packPayload f

/-- Whether a Zlib compression step occurs anywhere in the payload
pipeline. -/
def usesZlib : Payload → Bool
  | .raw _ => false
  | .zstdCompress _ p => usesZlib p
  | .zlibCompress p => true
  | .xxteaEncrypt _ p => usesZlib p

end ark

namespace pvr

/-- Python-level failures observable through the modelled `pvr.py` code
paths. -/
inductive PvrErr where
  /-- `struct.error`/`dataclasses_struct` unpacking failure on a short
  buffer. -/
  | structError
  /-- The failed `assert header.magic == self.MAGIC`. -/
  | assertionError
  /-- `NotImplementedError` for an unsupported pixel format. -/
  | notImplemented
  /-- `ValueError`, e.g. `Image.frombytes` on too little image data. -/
  | valueError
  /-- `TypeError('cannot open file')` from `open_binary`. -/
  | typeError
  /-- Python's `RecursionError`; stands for exhausting the recursion
  budget of the nested external-alpha reads (the model's fuel). -/
  | recursionError
  /-- `UnicodeDecodeError` from `c.decode()` on a non-ASCII channel
  byte. -/
  | unicodeDecodeError
  deriving DecidableEq, Repr

/-- The 52-byte PVR3 header (`pvr.py`, `@dcs.dataclass Header`). -/
structure Header where
  magic : List Nat
  flags : Nat
  format : List Nat
  channel_bit_rates : List Nat
  color_space : Nat
  channel_type : Nat
  height : Nat
  width : Nat
  depth : Nat
  num_surfaces : Nat
  num_faces : Nat
  mip_map_count : Nat
  metadata_size : Nat
  deriving DecidableEq, Repr

def MAGIC : List Nat := [80, 86, 82, 3]

/-- `PVR._read_header`: unpack the 52-byte header and
`assert header.magic == self.MAGIC`. -/
def readHeader (b : List Nat) : Except PvrErr Header :=
  if b.length < 52 then .error .structError
  else
    let hdr : Header :=
      { magic := b.take 4, flags := ark.leU32At b 4,
        format := (b.drop 8).take 4,
        channel_bit_rates := (b.drop 12).take 4,
        color_space := ark.leU32At b 16, channel_type := ark.leU32At b 20,
        height := ark.leU32At b 24, width := ark.leU32At b 28,
        depth := ark.leU32At b 32, num_surfaces := ark.leU32At b 36,
        num_faces := ark.leU32At b 40, mip_map_count := ark.leU32At b 44,
        metadata_size := ark.leU32At b 48 }
    if hdr.magic ≠ MAGIC then .error .assertionError else .ok hdr

/-- `PVR._read_metadata`: skipped when `metadata_size == 0`; otherwise a
12-byte `MetadataHeader` (fourCC, key, data_size) followed by the
metadata block.  For the known fourCC with key 3 the block is unpacked
with `struct.unpack('3?', ...)`, which demands exactly 3 bytes; other
keys/fourCCs only warn.  The parsed orientation dictionary itself is not
consumed by any modelled claim, so the result is `Unit`. -/
def readMetadata (hdr : Header) (b : List Nat) : Except PvrErr Unit :=
  if hdr.metadata_size = 0 then .ok ()
  else if b.length < 64 then .error .structError
  else
    let fourCC := (b.drop 52).take 4
    let key := ark.leU32At b 56
    let data_size := ark.leU32At b 60
    let block := (b.drop 64).take data_size
    if fourCC = MAGIC then
      if key = 3 then
        if block.length ≠ 3 then .error .structError else .ok ()
      else .ok ()
    else .ok ()

/-- A decoded image: PIL `RGBA` mode, `pixels` is the flat
`r,g,b,a,r,g,b,a,…` byte sequence. -/
structure Image where
  width : Nat
  height : Nat
  pixels : List Nat
  deriving DecidableEq, Repr

/-- `Image.frombytes(..., 'raw', 'BGRA')`: reorder each 4-byte group. -/
def swizzleBGRA : List Nat → List Nat
  | b :: g :: r :: a :: rest => r :: g :: b :: a :: swizzleBGRA rest
  | _ => []

/-- `PVR._read_image`: seek past header and metadata, read the payload,
and dispatch on the pixel format.  The external `texture2ddecoder`
decoders are passed in as functions (`astcD data w h` stands for
`decode_astc(data, w, h, 8, 8)`, `etc1D` for `decode_etc1`);
`Image.frombytes` raises `ValueError` when the supplied buffer is
shorter than `4*w*h`. -/
def readImage (astcD etc1D : List Nat → Nat → Nat → List Nat)
    (hdr : Header) (b : List Nat) : Except PvrErr Image :=
  let image_data := b.drop (52 + hdr.metadata_size)
  if 0 < hdr.channel_bit_rates.sum then
    if hdr.format.any (fun c => 128 ≤ c) then .error .unicodeDecodeError
    else if hdr.format = [114, 103, 98, 97] ∧
        hdr.channel_bit_rates = [8, 8, 8, 8] then
      if image_data.length < 4 * hdr.width * hdr.height then
        .error .valueError
      else
        .ok { width := hdr.width, height := hdr.height,
              pixels := image_data.take (4 * hdr.width * hdr.height) }
    else .error .notImplemented
  else
    let format := ark.leU32At hdr.format 0
    if format = 34 then
      let decoded := astcD image_data hdr.width hdr.height
      if decoded.length < 4 * hdr.width * hdr.height then .error .valueError
      else
        .ok { width := hdr.width, height := hdr.height,
              pixels := swizzleBGRA (decoded.take (4 * hdr.width * hdr.height)) }
    else if format = 6 then
      let decoded := etc1D image_data hdr.width hdr.height
      if decoded.length < 4 * hdr.width * hdr.height then .error .valueError
      else
        .ok { width := hdr.width, height := hdr.height,
              pixels := swizzleBGRA (decoded.take (4 * hdr.width * hdr.height)) }
    else .error .notImplemented

/-- Minimum of the alpha channel (every 4th byte), 255 for no pixels:
the `getextrema()[3][0]` of an RGBA image. -/
def alphaMin : List Nat → Nat
  | _ :: _ :: _ :: a :: rest => min a (alphaMin rest)
  | _ => 255

/-- `utils.image_has_alpha` on an RGBA image with no `transparency`
info: `'A' in mode` holds and the check is `extrema[3][0] < 255`. -/
def image_has_alpha (img : Image) : Bool := decide (alphaMin img.pixels < 255)

/-- PIL `convert('L')` per pixel: `(r*19595 + g*38470 + b*7471 + 2^15) >> 16`
(the `L24` macro of PIL's `Convert.c`). -/
def lumaPixel (r g b : Nat) : Nat :=
  (r * 19595 + g * 38470 + b * 7471 + 32768) >>> 16

def toLuma : List Nat → List Nat
  | r :: g :: b :: _ :: rest => lumaPixel r g b :: toLuma rest
  | _ => []

/-- `Image.putalpha`: replace the alpha band. -/
def putAlphaBytes : List Nat → List Nat → List Nat
  | r :: g :: b :: a :: rest, l :: lrest => r :: g :: b :: l ::
      putAlphaBytes rest lrest
  | r :: g :: b :: a :: rest, [] => r :: g :: b :: a :: rest
  | px, _ => px

/-- `utils.put_alpha(image1, image2)`: convert `image2` to luminance and
install it as `image1`'s alpha channel. -/
def put_alpha (img1 img2 : Image) : Image :=
  { img1 with pixels := putAlphaBytes img1.pixels (toLuma img2.pixels) }

/-- The three shapes of `PVR.read` input: a path string, a `bytes`
value, or an already-open binary stream. -/
inductive PVRInput where
  | path (s : String)
  | bytesIn (b : List Nat)
  | stream (b : List Nat)
  deriving DecidableEq, Repr

/-- `file_utils.open_binary`: a path string is opened through the
filesystem (`TypeError('cannot open file')` when `os.path.isfile`
fails), `bytes` become a fresh `BytesIO`, and a binary stream is used
as-is. -/
def openBinary (fs : List (String × List Nat)) (input : PVRInput) :
    Except PvrErr (List Nat) :=
  match input with
  | .path s =>
    match fs.lookup s with
    | some c => .ok c
    | none => .error .typeError
  | .bytesIn b => .ok b
  | .stream b => .ok b

/-- Last index of a character in a list (`str.rfind`, `-1` when
absent). -/
def lastIdxOf (c : Char) (l : List Char) : Int :=
  match l.reverse.indexOf? c with
  | some i => (l.length : Int) - 1 - (i : Int)
  | none => -1

/-- `posixpath.splitext`: split at the last dot of the basename unless
every character before it (after the last `/`) is a dot. -/
def splitext (s : String) : String × String :=
  let l := s.data
  let sepIdx := lastIdxOf '/' l
  let dotIdx := lastIdxOf '.' l
  if sepIdx < dotIdx then
    let nameStart := (sepIdx + 1).toNat
    let leading := (l.drop nameStart).take (dotIdx.toNat - nameStart)
    if leading.any (fun c => c ≠ '.') then
      (⟨l.take dotIdx.toNat⟩, ⟨l.drop dotIdx.toNat⟩)
    else (s, "")
  else (s, "")

/-- The external-alpha sibling name:
`f'{split_filename[0]}.alpha{split_filename[1]}'`. -/
def alphaName (s : String) : String :=
  (splitext s).1 ++ ".alpha" ++ (splitext s).2

/-- The state `PVR.read` leaves on the object. -/
structure PVRResult where
  header : Header
  filename : String
  alpha_filename : String
  image : Image
  deriving DecidableEq, Repr

/-- `PVR.read` (with the construction-time `external_alpha` flag): open
the input, remember the filename and look up the `.alpha` sibling only
when the input is a path string, parse header/metadata/image, and then
splice the sibling's luminance as alpha when the sibling was found, the
primary has no alpha of its own, and the dimensions agree — a
size-mismatched sibling is silently skipped.  The recursive
`PVR(self.alpha_filename)` read runs with `external_alpha = True`
(the constructor default); `fuel` bounds that recursion, standing for
Python's recursion limit. -/
def read (fuel : Nat) (fs : List (String × List Nat))
    (astcD etc1D : List Nat → Nat → Nat → List Nat)
    (external_alpha : Bool) (input : PVRInput) : Except PvrErr PVRResult :=
  match fuel with
  | 0 => .error .recursionError
  | fuel + 1 =>
    match openBinary fs input with
    | .error e => .error e
    | .ok data =>
      let fnames :=
        match input with
        | .path s =>
          (s, if external_alpha then
                if (fs.lookup (alphaName s)).isSome then alphaName s else ""
              else "")
        | _ => ("", "")
      match readHeader data with
      | .error e => .error e
      | .ok header =>
        match readMetadata header data with
        | .error e => .error e
        | .ok _ =>
          match readImage astcD etc1D header data with
          | .error e => .error e
          | .ok image =>
            if fnames.2 ≠ "" ∧ image_has_alpha image = false then
              match read fuel fs astcD etc1D true (.path fnames.2) with
              | .error e => .error e
              | .ok alphaRes =>
                if (alphaRes.image.width, alphaRes.image.height) =
                    (image.width, image.height) then
                  .ok { header := header, filename := fnames.1,
                        alpha_filename := fnames.2,
                        image := put_alpha image alphaRes.image }
                else
                  .ok { header := header, filename := fnames.1,
                        alpha_filename := fnames.2, image := image }
            else
              .ok { header := header, filename := fnames.1,
                    alpha_filename := fnames.2, image := image }

/-- A concrete two-file filesystem: `a.pvr` is a 1×1 raw-RGBA8888 image
with opaque alpha, and its external-alpha sibling `a.alpha.pvr` is a
2×1 raw-RGBA8888 image (mismatched dimensions). -/
def fsC8 : List (String × List Nat) :=
  [("a.pvr",
    [80, 86, 82, 3, 0, 0, 0, 0, 114, 103, 98, 97, 8, 8, 8, 8,
     0, 0, 0, 0, 0, 0, 0, 0, 1, 0, 0, 0, 1, 0, 0, 0, 1, 0, 0, 0,
     1, 0, 0, 0, 1, 0, 0, 0, 1, 0, 0, 0, 0, 0, 0, 0,
     10, 20, 30, 255]),
   ("a.alpha.pvr",
    [80, 86, 82, 3, 0, 0, 0, 0, 114, 103, 98, 97, 8, 8, 8, 8,
     0, 0, 0, 0, 0, 0, 0, 0, 1, 0, 0, 0, 2, 0, 0, 0, 1, 0, 0, 0,
     1, 0, 0, 0, 1, 0, 0, 0, 1, 0, 0, 0, 0, 0, 0, 0,
     0, 0, 0, 255, 0, 0, 0, 255])]

end pvr

/-! ## Theorems -/

theorem U32_pos : 0 < U32 := by decide

theorem U32_eq : U32 = 4294967296 := rfl

/-- Bitwise xor commutes with truncation to the low `k` bits. -/
theorem xor_mod_two_pow (a b k : Nat) :
    (a ^^^ b) % 2 ^ k = a % 2 ^ k ^^^ b % 2 ^ k := by
  apply Nat.eq_of_testBit_eq
  intro i
  simp only [Nat.testBit_mod_two_pow, Nat.testBit_xor]
  by_cases h : i < k <;> simp [h]

theorem xor_lt_U32 {a b : Nat} (ha : a < U32) (hb : b < U32) : a ^^^ b < U32 :=
  Nat.xor_lt_two_pow ha hb

namespace xxtea

theorem getD_lt_U32 {key : List Nat} (hkey : ∀ k ∈ key, k < U32) (i : Nat) :
    key.getD i 0 < U32 := by
  rcases lt_or_ge i key.length with h | h
  · rw [List.getD_eq_getElem _ _ h]
    exact hkey _ (List.getElem_mem h)
  · rw [List.getD_eq_default _ _ h]
    exact U32_pos

theorem sub32_add_cancel (x m : Nat) (hx : x < U32) :
    sub32 ((x + m) % U32) m = x := by
  unfold sub32
  rw [U32_eq] at *
  omega

theorem length_encStep (key : List Nat) (sum : Nat) (v : List Nat) (p : Nat) :
    (encStep key sum v p).length = v.length := by
  simp [encStep]

theorem length_decStep (key : List Nat) (sum : Nat) (v : List Nat) (p : Nat) :
    (decStep key sum v p).length = v.length := by
  simp [decStep]

theorem length_foldl_encStep (key : List Nat) (sum : Nat) (l : List Nat) (v : List Nat) :
    (l.foldl (encStep key sum) v).length = v.length := by
  induction l generalizing v with
  | nil => rfl
  | cons a l ih => rw [List.foldl_cons, ih, length_encStep]

theorem length_foldl_decStep (key : List Nat) (sum : Nat) (l : List Nat) (v : List Nat) :
    (l.foldl (decStep key sum) v).length = v.length := by
  induction l generalizing v with
  | nil => rfl
  | cons a l ih => rw [List.foldl_cons, ih, length_decStep]

theorem encStep_allLt {v : List Nat} (hv : ∀ x ∈ v, x < U32)
    (key : List Nat) (sum p : Nat) : ∀ x ∈ encStep key sum v p, x < U32 := by
  intro x hx
  simp only [encStep] at hx
  rcases List.mem_or_eq_of_mem_set hx with h | rfl
  · exact hv x h
  · exact Nat.mod_lt _ U32_pos

theorem foldl_encStep_allLt {v : List Nat} (hv : ∀ x ∈ v, x < U32)
    (key : List Nat) (sum : Nat) (l : List Nat) :
    ∀ x ∈ l.foldl (encStep key sum) v, x < U32 := by
  induction l generalizing v with
  | nil => exact hv
  | cons a l ih => exact ih (encStep_allLt hv key sum a)

/-- The two neighbour indices read by a step differ from the index being
written, as soon as the array has at least two words. -/
theorem succ_mod_ne {n p : Nat} (hn : 2 ≤ n) (hp : p < n) : (p + 1) % n ≠ p := by
  rcases Nat.lt_or_ge (p + 1) n with h | h
  · rw [Nat.mod_eq_of_lt h]; omega
  · have hpn : p + 1 = n := by omega
    rw [hpn, Nat.mod_self]; omega

theorem pred_mod_ne {n p : Nat} (hn : 2 ≤ n) (hp : p < n) :
    (p + n - 1) % n ≠ p := by
  rcases Nat.eq_zero_or_pos p with rfl | hpos
  · have h1 : 0 + n - 1 = n - 1 := by omega
    rw [h1, Nat.mod_eq_of_lt (by omega)]
    omega
  · have h1 : p + n - 1 = (p - 1) + n := by omega
    rw [h1, Nat.add_mod_right, Nat.mod_eq_of_lt (by omega)]
    omega

theorem getD_set_ne {v : List Nat} {i j : Nat} (a : Nat) (h : i ≠ j) :
    (v.set i a).getD j 0 = v.getD j 0 := by
  rw [List.getD_eq_getElem?_getD, List.getD_eq_getElem?_getD,
    List.getElem?_set_ne h]

theorem getD_set_self {v : List Nat} {p : Nat} (a : Nat) (hp : p < v.length) :
    (v.set p a).getD p 0 = a := by
  rw [List.getD_eq_getElem?_getD, List.getElem?_set_eq_of_lt a hp]
  rfl

theorem getD_lt_of_allLt {v : List Nat} (hv : ∀ x ∈ v, x < U32) (p : Nat) :
    v.getD p 0 < U32 := by
  rcases lt_or_ge p v.length with h | h
  · rw [List.getD_eq_getElem _ _ h]
    exact hv _ (List.getElem_mem h)
  · rw [List.getD_eq_default _ _ h]
    exact U32_pos

/-- A decryption assignment undoes the matching encryption assignment:
the two neighbour words it reads are untouched, so the subtracted `MX`
equals the added one. -/
theorem decStep_encStep {v : List Nat} (key : List Nat) (sum p : Nat)
    (hp : p < v.length) (h2 : 2 ≤ v.length) (hv : v.getD p 0 < U32) :
    decStep key sum (encStep key sum v p) p = v := by
  have hy := succ_mod_ne h2 hp
  have hz := pred_mod_ne h2 hp
  unfold encStep decStep
  simp only [List.length_set]
  rw [getD_set_ne _ (Ne.symm hy), getD_set_ne _ (Ne.symm hz),
    getD_set_self _ hp, sub32_add_cancel _ _ hv, List.set_set]
  apply List.ext_getElem?
  intro j
  rcases eq_or_ne j p with rfl | hne
  · rw [List.getElem?_set_eq_of_lt _ hp, List.getElem?_eq_getElem hp,
      List.getD_eq_getElem _ _ hp]
  · rw [List.getElem?_set_ne (Ne.symm hne)]

/-- Folding the decryption steps over the reversed index list undoes the
encryption fold. -/
theorem foldl_decStep_encStep {v : List Nat} (key : List Nat) (sum : Nat) (l : List Nat)
    (hl : ∀ p ∈ l, p < v.length) (h2 : 2 ≤ v.length)
    (hv : ∀ x ∈ v, x < U32) :
    l.reverse.foldl (decStep key sum) (l.foldl (encStep key sum) v) = v := by
  induction l using List.reverseRecOn generalizing v with
  | nil => rfl
  | append_singleton l a ih =>
    rw [List.foldl_append, List.reverse_append, List.reverse_singleton,
      List.singleton_append, List.foldl_cons, List.foldl_cons, List.foldl_nil]
    have hw : ∀ x ∈ l.foldl (encStep key sum) v, x < U32 :=
      foldl_encStep_allLt hv key sum l
    have hlen : (l.foldl (encStep key sum) v).length = v.length :=
      length_foldl_encStep key sum l v
    have hp : a < (l.foldl (encStep key sum) v).length := by
      rw [hlen]; exact hl a (by simp)
    rw [decStep_encStep key sum a hp (by omega) (getD_lt_of_allLt hw a)]
    exact ih (fun p hp => hl p (by simp [hp])) h2 hv

/-- Invariant of `encrypt`'s inner loop: after the steps `p = 0 .. k-1` the
array equals the uniform-step fold and the carried `z` register holds the
word at index `(k + n - 1) % n` of the current array. -/
theorem encFold_spec (key : List Nat) (sum : Nat) (v : List Nat)
    (hn : 1 ≤ v.length) :
    ∀ k, k ≤ v.length - 1 →
      (List.range k).foldl (encBody key sum ((sum >>> 2) &&& 3))
          (v, v.getD (v.length - 1) 0) =
        ((List.range k).foldl (encStep key sum) v,
          ((List.range k).foldl (encStep key sum) v).getD
            ((k + v.length - 1) % v.length) 0) := by
  intro k
  induction k with
  | zero =>
    intro _
    simp only [List.range_zero, List.foldl_nil, Nat.zero_add]
    rw [Nat.mod_eq_of_lt (by omega)]
  | succ k ih =>
    intro hk1
    have hk : k ≤ v.length - 1 := by omega
    simp only [List.range_succ, List.foldl_append, List.foldl_cons,
      List.foldl_nil]
    rw [ih hk]
    have hw : ((List.range k).foldl (encStep key sum) v).length = v.length :=
      length_foldl_encStep key sum (List.range k) v
    simp only [encBody, encStep, hw]
    have e1 : (k + 1) % v.length = k + 1 := Nat.mod_eq_of_lt (by omega)
    have e2 : (k + 1 + v.length - 1) % v.length = k := by
      have h : k + 1 + v.length - 1 = k + v.length := by omega
      rw [h, Nat.add_mod_right, Nat.mod_eq_of_lt (by omega)]
    rw [e1, e2]

/-- The literal round of `encrypt` (inner loop plus wrap-up step) is the
uniform-step fold over `p = 0 .. n-1`. -/
theorem encRound_eq (key : List Nat) (sum : Nat) (v : List Nat)
    (hn : 1 ≤ v.length) :
    encRound key sum v = (List.range v.length).foldl (encStep key sum) v := by
  obtain ⟨m, hm⟩ : ∃ m, v.length = m + 1 := ⟨v.length - 1, by omega⟩
  have hspec := encFold_spec key sum v hn (v.length - 1) le_rfl
  rw [hm] at hspec
  simp only [Nat.add_sub_cancel] at hspec
  simp only [encRound, hm, Nat.add_sub_cancel]
  rw [hspec]
  rw [List.range_succ, List.foldl_append, List.foldl_cons, List.foldl_nil]
  have hw : ((List.range m).foldl (encStep key sum) v).length = m + 1 := by
    rw [length_foldl_encStep key sum (List.range m) v, hm]
  simp only [encStep, hw, Nat.mod_self]

/-- Invariant of `decrypt`'s inner loop: after the steps
`p = n-1 .. n-j` the array equals the uniform-step fold over those indices
and the carried `y` register holds the word at index `(n - j) % n`. -/
theorem decFold_spec (key : List Nat) (sum : Nat) (v : List Nat)
    (hn : 1 ≤ v.length) :
    ∀ j, j ≤ v.length - 1 →
      ((List.range' (v.length - 1 - j) j).reverse).foldl
          (fun st q => decBody key sum ((sum >>> 2) &&& 3) st (q + 1))
          (v, v.getD 0 0) =
        (((List.range' (v.length - j) j).reverse).foldl (decStep key sum) v,
          (((List.range' (v.length - j) j).reverse).foldl
              (decStep key sum) v).getD ((v.length - j) % v.length) 0) := by
  intro j
  induction j with
  | zero =>
    intro _
    simp only [List.range'_zero, List.reverse_nil, List.foldl_nil,
      Nat.sub_zero, Nat.mod_self]
  | succ j ih =>
    intro hj1
    have hj : j ≤ v.length - 1 := by omega
    have hq : v.length - 1 - (j + 1) = v.length - 2 - j := by omega
    have hq2 : v.length - 2 - j + 1 = v.length - 1 - j := by omega
    have hr : v.length - (j + 1) = v.length - 1 - j := by omega
    have hr2 : v.length - 1 - j + 1 = v.length - j := by omega
    rw [hq, List.range'_succ, hq2, hr, List.range'_succ, hr2,
      List.reverse_cons, List.reverse_cons, List.foldl_append,
      List.foldl_append, List.foldl_cons, List.foldl_nil, List.foldl_cons,
      List.foldl_nil, ih hj]
    have hw : (((List.range' (v.length - j) j).reverse).foldl
        (decStep key sum) v).length = v.length :=
      length_foldl_decStep key sum _ v
    simp only [decBody, decStep, hw, hq2]
    have i2 : (v.length - 1 - j + 1) % v.length = (v.length - j) % v.length := by
      rw [hr2]
    have i3 : (v.length - 1 - j + v.length - 1) % v.length =
        v.length - 1 - j - 1 := by
      have h : v.length - 1 - j + v.length - 1 = (v.length - 2 - j) + v.length := by
        omega
      rw [h, Nat.add_mod_right, Nat.mod_eq_of_lt (by omega)]
      omega
    have i5 : (v.length - 1 - j) % v.length = v.length - 1 - j :=
      Nat.mod_eq_of_lt (by omega)
    rw [i2, i3, i5]

/-- The literal round of `decrypt` (inner loop plus wrap-up step) is the
uniform-step fold over `p = n-1 .. 0`. -/
theorem decRound_eq (key : List Nat) (sum : Nat) (v : List Nat)
    (hn : 1 ≤ v.length) :
    decRound key sum v =
      ((List.range v.length).reverse).foldl (decStep key sum) v := by
  obtain ⟨m, hm⟩ : ∃ m, v.length = m + 1 := ⟨v.length - 1, by omega⟩
  have hspec := decFold_spec key sum v hn m (by omega)
  have e0 : v.length - 1 - m = 0 := by omega
  have e1 : v.length - m = 1 := by omega
  rw [e0, e1, ← List.range_eq_range', hm] at hspec
  simp only [decRound, hm, Nat.add_sub_cancel]
  rw [hspec]
  rw [List.range_eq_range', List.range'_succ, List.reverse_cons,
    List.foldl_append, List.foldl_cons, List.foldl_nil]
  have hwW : ((List.range' 1 m).reverse.foldl (decStep key sum) v).length =
      m + 1 := by
    rw [length_foldl_decStep key sum _ v, hm]
  simp only [decStep, hwW, Nat.zero_add]
  have e3 : (m + 1 - 1) % (m + 1) = m := by
    rw [Nat.add_sub_cancel, Nat.mod_eq_of_lt (by omega)]
  rw [e3]

/-- One decryption round at a given `sum` undoes one encryption round at
the same `sum`. -/
theorem decRound_encRound (key : List Nat) (sum : Nat) (v : List Nat)
    (h2 : 2 ≤ v.length) (hv : ∀ x ∈ v, x < U32) :
    decRound key sum (encRound key sum v) = v := by
  rw [encRound_eq key sum v (by omega)]
  have hlen : ((List.range v.length).foldl (encStep key sum) v).length =
      v.length := length_foldl_encStep key sum _ v
  rw [decRound_eq key sum _ (by rw [hlen]; omega), hlen]
  exact foldl_decStep_encStep key sum (List.range v.length)
    (fun p hp => List.mem_range.mp hp) h2 hv

theorem length_encRound (key : List Nat) (sum : Nat) (v : List Nat)
    (hn : 1 ≤ v.length) : (encRound key sum v).length = v.length := by
  rw [encRound_eq key sum v hn]
  exact length_foldl_encStep key sum _ v

theorem encRound_allLt (key : List Nat) (sum : Nat) {v : List Nat}
    (hn : 1 ≤ v.length) (hv : ∀ x ∈ v, x < U32) :
    ∀ x ∈ encRound key sum v, x < U32 := by
  rw [encRound_eq key sum v hn]
  exact foldl_encStep_allLt hv key sum _

theorem length_encRounds (key : List Nat) (r : Nat) :
    ∀ (sum : Nat) (v : List Nat), 1 ≤ v.length →
      (encRounds key r sum v).length = v.length := by
  induction r with
  | zero => intro sum v _; rfl
  | succ r ih =>
    intro sum v hn
    show (encRounds key r _ (encRound key _ v)).length = v.length
    rw [ih _ _ (by rw [length_encRound key _ v hn]; omega),
      length_encRound key _ v hn]

theorem encRounds_allLt (key : List Nat) (r : Nat) :
    ∀ (sum : Nat) {v : List Nat}, 1 ≤ v.length → (∀ x ∈ v, x < U32) →
      ∀ x ∈ encRounds key r sum v, x < U32 := by
  induction r with
  | zero => intro sum v _ hv; exact hv
  | succ r ih =>
    intro sum v hn hv
    exact ih _ (by rw [length_encRound key _ v hn]; omega)
      (encRound_allLt key _ hn hv)

theorem DELTA_lt_U32 : DELTA < U32 := by decide

/-- Unfolding `encrypt`'s round loop from the other end: the last round
applied has `sum = (sum₀ + (r+1) · DELTA) % 2^32`. -/
theorem encRounds_succ (key : List Nat) (r : Nat) :
    ∀ (sum : Nat) (v : List Nat),
      encRounds key (r + 1) sum v =
        encRound key ((sum + (r + 1) * DELTA) % U32) (encRounds key r sum v) := by
  induction r with
  | zero =>
    intro sum v
    show encRound key ((sum + DELTA) % U32) v = _
    rw [Nat.one_mul]
    rfl
  | succ r ih =>
    intro sum v
    show encRounds key (r + 1) ((sum + DELTA) % U32)
        (encRound key ((sum + DELTA) % U32) v) = _
    rw [ih]
    have h : ((sum + DELTA) % U32 + (r + 1) * DELTA) % U32 =
        (sum + (r + 1 + 1) * DELTA) % U32 := by
      rw [Nat.mod_add_mod]
      congr 1
      ring
    rw [h]
    rfl

/-- `decrypt`'s round loop inverts `encrypt`'s: starting from
`sum₀ + r · DELTA` and stepping `sum` down by `DELTA` undoes the `r`
rounds stepped up from `sum₀`. -/
theorem decRounds_encRounds (key : List Nat) (r : Nat) :
    ∀ (sum : Nat) (v : List Nat), sum < U32 → 2 ≤ v.length →
      (∀ x ∈ v, x < U32) →
      decRounds key r ((sum + r * DELTA) % U32) (encRounds key r sum v) = v := by
  induction r with
  | zero =>
    intro sum v hsum _ _
    show decRounds key 0 _ v = v
    rfl
  | succ r ih =>
    intro sum v hsum h2 hv
    rw [encRounds_succ]
    show decRounds key r (sub32 _ DELTA)
        (decRound key _ (encRound key _ (encRounds key r sum v))) = v
    rw [decRound_encRound key _ _
      (by rw [length_encRounds key r sum v (by omega)]; omega)
      (encRounds_allLt key r sum (by omega) hv)]
    have h : sub32 ((sum + (r + 1) * DELTA) % U32) DELTA =
        (sum + r * DELTA) % U32 := by
      unfold sub32
      rw [Nat.mod_add_mod]
      have hD : DELTA % U32 = DELTA := by decide
      rw [hD]
      have h1 : sum + (r + 1) * DELTA + (U32 - DELTA) =
          sum + r * DELTA + U32 := by
        have h2 : (r + 1) * DELTA = r * DELTA + DELTA := by ring
        have h3 : DELTA ≤ U32 := le_of_lt DELTA_lt_U32
        omega
      rw [h1, Nat.add_mod_right]
    rw [h]
    exact ih sum v hsum h2 hv

theorem bytesToWords_length : ∀ b : List Nat,
    (bytesToWords b).length = b.length / 4
  | [] => rfl
  | [_] => by simp [bytesToWords]
  | [_, _] => by simp [bytesToWords]
  | [_, _, _] => by simp [bytesToWords]
  | b0 :: b1 :: b2 :: b3 :: rest => by
    show ((b0 + 256 * b1 + 65536 * b2 + 16777216 * b3) ::
      bytesToWords rest).length = _
    rw [List.length_cons, bytesToWords_length rest]
    simp only [List.length_cons]
    omega

theorem bytesToWords_allLt : ∀ b : List Nat, (∀ x ∈ b, x < 256) →
    ∀ w ∈ bytesToWords b, w < U32
  | [], _ => by intro w hw; cases hw
  | [_], _ => by intro w hw; cases hw
  | [_, _], _ => by intro w hw; cases hw
  | [_, _, _], _ => by intro w hw; cases hw
  | b0 :: b1 :: b2 :: b3 :: rest, hb => by
    intro w hw
    rcases List.mem_cons.mp hw with rfl | hw
    · have h0 : b0 < 256 := hb b0 (by simp)
      have h1 : b1 < 256 := hb b1 (by simp)
      have h2 : b2 < 256 := hb b2 (by simp)
      have h3 : b3 < 256 := hb b3 (by simp)
      rw [U32_eq]
      omega
    · exact bytesToWords_allLt rest (fun x hx => hb x (by simp [hx])) w hw

theorem wordsToBytes_bytesToWords : ∀ b : List Nat, b.length % 4 = 0 →
    (∀ x ∈ b, x < 256) → wordsToBytes (bytesToWords b) = b
  | [], _, _ => rfl
  | [_], h, _ => by simp at h
  | [_, _], h, _ => by simp at h
  | [_, _, _], h, _ => by simp at h
  | b0 :: b1 :: b2 :: b3 :: rest, h, hb => by
    have h0 : b0 < 256 := hb b0 (by simp)
    have h1 : b1 < 256 := hb b1 (by simp)
    have h2 : b2 < 256 := hb b2 (by simp)
    have h3 : b3 < 256 := hb b3 (by simp)
    have hrest : rest.length % 4 = 0 := by
      simp only [List.length_cons] at h
      omega
    show (b0 + 256 * b1 + 65536 * b2 + 16777216 * b3) % 256 :: _ :: _ :: _ ::
      wordsToBytes (bytesToWords rest) = _
    rw [wordsToBytes_bytesToWords rest hrest
      (fun x hx => hb x (by simp [hx]))]
    congr 1
    · omega
    congr 1
    · omega
    congr 1
    · omega
    congr 1
    omega

theorem bytesToWords_wordsToBytes : ∀ ws : List Nat, (∀ w ∈ ws, w < U32) →
    bytesToWords (wordsToBytes ws) = ws
  | [], _ => rfl
  | w :: rest, hw => by
    have hwlt : w < U32 := hw w (by simp)
    rw [U32_eq] at hwlt
    show (w % 256 + 256 * (w / 256 % 256) + 65536 * (w / 65536 % 256) +
      16777216 * (w / 16777216 % 256)) :: bytesToWords (wordsToBytes rest) = _
    rw [bytesToWords_wordsToBytes rest (fun x hx => hw x (by simp [hx]))]
    congr 1
    omega

theorem wordsToBytes_length : ∀ ws : List Nat,
    (wordsToBytes ws).length = 4 * ws.length
  | [] => rfl
  | w :: rest => by
    show (w % 256 :: w / 256 % 256 :: w / 65536 % 256 :: w / 16777216 % 256 ::
      wordsToBytes rest).length = _
    rw [List.length_cons, List.length_cons, List.length_cons,
      List.length_cons, wordsToBytes_length rest, List.length_cons]
    ring

theorem get_phdr_size_of_aligned {len : Nat} (h : len % 4 = 0) :
    get_phdr_size len = len := by
  unfold get_phdr_size
  have h3 : len &&& 3 = len % 4 := by
    have h4 := Nat.and_pow_two_sub_one_eq_mod len 2
    norm_num at h4
    exact h4
  rw [h3, h]
  exact if_neg (by simp)

theorem encrypt_eq_of_aligned (key b : List Nat) (hlen : b.length % 4 = 0)
    (hn : 1 ≤ b.length / 4) :
    encrypt b key = .ok (wordsToBytes (encRounds (key.map (· % U32))
      (6 + 52 / (b.length / 4)) 0 (bytesToWords b))) := by
  simp only [encrypt, get_phdr_size_of_aligned hlen]
  rw [if_neg (by omega), if_neg (by omega)]

theorem decrypt_eq_of_aligned (key c : List Nat) (hlen : c.length % 4 = 0)
    (hn : 1 ≤ c.length / 4) :
    decrypt c key = .ok (wordsToBytes (decRounds (key.map (· % U32))
      (6 + 52 / (c.length / 4))
      ((6 + 52 / (c.length / 4)) * DELTA % U32) (bytesToWords c))) := by
  simp only [decrypt, get_phdr_size_of_aligned hlen]
  rw [if_neg (by omega), if_neg (by omega)]

end xxtea

/-- C2: for every 128-bit key (four 32-bit words) and every byte string `b`
with `len(b) % 4 == 0` and `len(b)/4 ≥ 2`,
`decrypt(encrypt(b, key), key) == b` in `xxtea.py`. -/
theorem xxtea_decrypt_encrypt_roundtrip (key b : List Nat)
    (hkeylen : key.length = 4) (hkey : ∀ k ∈ key, k < U32)
    (hlen : b.length % 4 = 0) (hn : 2 ≤ b.length / 4)
    (hb : ∀ x ∈ b, x < 256) :
    ∃ c, xxtea.encrypt b key = .ok c ∧ xxtea.decrypt c key = .ok b := by
  refine ⟨_, xxtea.encrypt_eq_of_aligned key b hlen (by omega), ?_⟩
  set k := key.map (· % U32) with hk
  set W := xxtea.bytesToWords b with hWdef
  have hWlen : W.length = b.length / 4 := xxtea.bytesToWords_length b
  have hWlt : ∀ x ∈ W, x < U32 := xxtea.bytesToWords_allLt b hb
  set R := 6 + 52 / (b.length / 4) with hR
  have hElen : (xxtea.encRounds k R 0 W).length = W.length :=
    xxtea.length_encRounds k R 0 W (by omega)
  have hclen : (xxtea.wordsToBytes (xxtea.encRounds k R 0 W)).length =
      4 * (b.length / 4) := by
    rw [xxtea.wordsToBytes_length, hElen, hWlen]
  rw [xxtea.decrypt_eq_of_aligned key _ (by omega) (by omega)]
  have hcdiv : (xxtea.wordsToBytes (xxtea.encRounds k R 0 W)).length / 4 =
      b.length / 4 := by omega
  rw [hcdiv]
  rw [xxtea.bytesToWords_wordsToBytes _
    (xxtea.encRounds_allLt k R 0 (by omega) hWlt)]
  have hsum : R * xxtea.DELTA % U32 = (0 + R * xxtea.DELTA) % U32 := by
    rw [Nat.zero_add]
  rw [hsum, xxtea.decRounds_encRounds k R 0 W U32_pos (by omega) hWlt]
  rw [hWdef, xxtea.wordsToBytes_bytesToWords b hlen hb]

/-- C3: the per-word mixing value `MX` computed by `encrypt` and `decrypt`
(Python unbounded integers, truncated only at the `c_uint32` assignment)
agrees modulo `2 ^ 32` with the reference formula
`MX = ((z>>5 ^ y<<2) + (y>>3 ^ z<<4)) ^ ((sum ^ y) + (key[(p&3) ^ e] ^ z))`
evaluated in unsigned 32-bit wrap-around arithmetic with logical right
shifts, for every round state of 32-bit words with `e = (sum>>2) & 3`. -/
theorem MX_mod_eq_MXref (key : List Nat) (y z sum p e : Nat)
    (hy : y < U32) (hz : z < U32) (hsum : sum < U32)
    (hkey : ∀ k ∈ key, k < U32) (he : e = (sum >>> 2) &&& 3) :
    xxtea.MX key y z sum p e % U32 = xxtea.MXref key y z sum p e := by
  have xm : ∀ a b : Nat, (a ^^^ b) % U32 = a % U32 ^^^ b % U32 := fun a b =>
    xor_mod_two_pow a b 32
  have hsr5 : z >>> 5 < U32 := by
    rw [Nat.shiftRight_eq_div_pow]
    exact lt_of_le_of_lt (Nat.div_le_self z (2 ^ 5)) hz
  have hsr3 : y >>> 3 < U32 := by
    rw [Nat.shiftRight_eq_div_pow]
    exact lt_of_le_of_lt (Nat.div_le_self y (2 ^ 3)) hy
  unfold xxtea.MX xxtea.MXref
  rw [xm]
  congr 1
  · rw [Nat.add_mod, xm, xm, Nat.mod_eq_of_lt hsr5, Nat.mod_eq_of_lt hsr3]
  · exact Nat.add_mod _ _ _

/-- Witness for C3 at a concrete round state. -/
theorem MX_mod_eq_MXref_witness :
    xxtea.MX [9, 10, 11, 12] 7 4294967295 13 2 3 % U32 =
      xxtea.MXref [9, 10, 11, 12] 7 4294967295 13 2 3 :=
  MX_mod_eq_MXref [9, 10, 11, 12] 7 4294967295 13 2 3 (by decide) (by decide)
    (by decide) (by decide) (by decide)

namespace arkfn

theorem boolVal_inj {a b : Bool} (h : boolVal a = boolVal b) : a = b := by
  cases a <;> cases b <;> simp_all [boolVal]

/-- The tail of the comparison chain (encoding, format, calibre) is the
strict order of the corresponding lexicographic key tail. -/
theorem encoding_chain_iff (x y : ARKFilename) :
    ((if x.encoding ≠ y.encoding then decide (x.encoding < y.encoding)
      else if x.format ≠ y.format then decide (x.format > y.format)
      else if get_priority (device_calibre x) CALIBRE_PRIORITY ≠
          get_priority (device_calibre y) CALIBRE_PRIORITY then
        decide (get_priority (device_calibre x) CALIBRE_PRIORITY <
          get_priority (device_calibre y) CALIBRE_PRIORITY)
      else false) = true) ↔
    toLex (x.encoding, toLex (OrderDual.toDual x.format,
        get_priority (device_calibre x) CALIBRE_PRIORITY)) <
      toLex (y.encoding, toLex (OrderDual.toDual y.format,
        get_priority (device_calibre y) CALIBRE_PRIORITY)) := by
  rw [Prod.Lex.lt_iff]
  by_cases h5 : x.encoding = y.encoding
  swap
  · rw [if_pos h5]
    simp only [decide_eq_true_iff]
    constructor
    · exact fun h => Or.inl h
    · rintro (h | ⟨heq, _⟩)
      · exact h
      · exact absurd heq h5
  rw [if_neg (by simp [h5]), h5]
  simp only [lt_self_iff_false, false_or, eq_self_iff_true, true_and]
  rw [Prod.Lex.lt_iff]
  by_cases h6 : x.format = y.format
  swap
  · rw [if_pos h6]
    simp only [decide_eq_true_iff, OrderDual.toDual_lt_toDual]
    constructor
    · exact fun h => Or.inl h
    · rintro (h | ⟨heq, _⟩)
      · exact h
      · exact absurd (OrderDual.toDual_inj.mp heq) h6
  rw [if_neg (by simp [h6]), h6]
  simp only [lt_self_iff_false, false_or, eq_self_iff_true, true_and]
  by_cases h7 : get_priority (device_calibre x) CALIBRE_PRIORITY =
      get_priority (device_calibre y) CALIBRE_PRIORITY
  swap
  · rw [if_pos h7]
    simp only [decide_eq_true_iff]
  · rw [if_neg (by simp [h7]), h7]
    simp [lt_irrefl]

/-- `__lt__` is the strict order of the lexicographic sort key. -/
theorem lt_iff_ltKey (x y : ARKFilename) :
    lt x y = true ↔ ltKey x < ltKey y := by
  unfold lt ltKey tagRank calRank dlcKey
  rw [Prod.Lex.lt_iff]
  by_cases h1 : x.dlc = y.dlc
  swap
  · rw [if_pos h1]
    simp only [decide_eq_true_iff]
    constructor
    · exact fun h => Or.inl h
    · rintro (h | ⟨heq, _⟩)
      · exact h
      · exact absurd (boolVal_inj heq) h1
  rw [if_neg (by simp [h1])]
  have hb1 : boolVal x.dlc = boolVal y.dlc := by rw [h1]
  rw [hb1]
  simp only [lt_self_iff_false, false_or, eq_self_iff_true, true_and]
  rw [Prod.Lex.lt_iff]
  by_cases h2 : x.priority = y.priority
  swap
  · rw [if_pos h2]
    simp only [decide_eq_true_iff]
    constructor
    · exact fun h => Or.inl h
    · rintro (h | ⟨heq, _⟩)
      · exact h
      · exact absurd heq h2
  rw [if_neg (by simp [h2]), h2]
  simp only [lt_self_iff_false, false_or, eq_self_iff_true, true_and]
  rw [Prod.Lex.lt_iff]
  by_cases h3 : get_priority x.tag TAG_PRIORITY =
      get_priority y.tag TAG_PRIORITY
  swap
  · rw [if_pos h3]
    simp only [decide_eq_true_iff]
    constructor
    · exact fun h => Or.inl h
    · rintro (h | ⟨heq, _⟩)
      · exact h
      · exact absurd heq h3
  rw [if_neg (by simp [h3]), h3]
  simp only [lt_self_iff_false, false_or, eq_self_iff_true, true_and]
  rw [Prod.Lex.lt_iff]
  by_cases hx : x.dlc = true
  · have hy : y.dlc = true := h1 ▸ hx
    rw [if_pos hx, if_pos hy]
    by_cases h4 : x.dlc_tag = y.dlc_tag
    swap
    · rw [if_pos ⟨hx, hy, h4⟩]
      simp only [decide_eq_true_iff]
      constructor
      · exact fun h => Or.inl h
      · rintro (h | ⟨heq, _⟩)
        · exact h
        · exact absurd heq h4
    · rw [if_neg (by simp [h4]), h4]
      simp only [lt_self_iff_false, false_or, eq_self_iff_true, true_and]
      exact encoding_chain_iff x y
  · have hy : ¬(y.dlc = true) := by
      rw [← h1]; exact hx
    rw [if_neg hx, if_neg hy, if_neg (by simp [hx])]
    simp only [lt_self_iff_false, false_or, eq_self_iff_true, true_and]
    exact encoding_chain_iff x y

/-- `__eq__` implies equal sort keys. -/
theorem eq_ltKey {x y : ARKFilename} (h : eq x y = true) :
    ltKey x = ltKey y := by
  unfold eq at h
  simp only [decide_eq_true_iff] at h
  obtain ⟨hp, ht, he, hf, hc, hd, hdt⟩ := h
  unfold ltKey tagRank calRank dlcKey device_calibre
  rw [hp, ht, he, hf, hc, hd, hdt]

end arkfn

/-- C7 (amended): the `ARKFilename` comparison is a strict partial order
compatible with `__eq__`: `<` is transitive, and at most one of `x<y`,
`x==y`, `y<x` holds — but not always exactly one (see the
counterexample). -/
theorem arkfilename_lt_strict_order :
    (∀ x y z : arkfn.ARKFilename, arkfn.lt x y = true →
      arkfn.lt y z = true → arkfn.lt x z = true) ∧
    (∀ x y : arkfn.ARKFilename, arkfn.lt x y = true →
      arkfn.lt y x = false ∧ arkfn.eq x y = false) ∧
    (∀ x y : arkfn.ARKFilename, arkfn.eq x y = true →
      arkfn.lt x y = false ∧ arkfn.lt y x = false) := by
  refine ⟨?_, ?_, ?_⟩
  · intro x y z hxy hyz
    rw [arkfn.lt_iff_ltKey] at hxy hyz ⊢
    exact lt_trans hxy hyz
  · intro x y hxy
    rw [arkfn.lt_iff_ltKey] at hxy
    constructor
    · rw [Bool.eq_false_iff]
      intro h
      rw [arkfn.lt_iff_ltKey] at h
      exact absurd (lt_trans hxy h) (lt_irrefl _)
    · rw [Bool.eq_false_iff]
      intro h
      rw [arkfn.eq_ltKey h] at hxy
      exact absurd hxy (lt_irrefl _)
  · intro x y hxy
    have hk := arkfn.eq_ltKey hxy
    constructor
    · rw [Bool.eq_false_iff]
      intro h
      rw [arkfn.lt_iff_ltKey, hk] at h
      exact absurd h (lt_irrefl _)
    · rw [Bool.eq_false_iff]
      intro h
      rw [arkfn.lt_iff_ltKey, hk] at h
      exact absurd h (lt_irrefl _)

/-- Witness for C7 (amended) at concrete parsed filenames
(`000_and_startup`, `001_and_startup`, `002_and_startup`). -/
theorem arkfilename_lt_strict_order_witness :
    arkfn.lt ⟨0, "startup", "", "", "", false, ""⟩
        ⟨2, "startup", "", "", "", false, ""⟩ = true ∧
      arkfn.lt ⟨2, "startup", "", "", "", false, ""⟩
        ⟨0, "startup", "", "", "", false, ""⟩ = false ∧
      arkfn.eq ⟨0, "startup", "", "", "", false, ""⟩
        ⟨2, "startup", "", "", "", false, ""⟩ = false :=
  ⟨arkfilename_lt_strict_order.1 ⟨0, "startup", "", "", "", false, ""⟩
      ⟨1, "startup", "", "", "", false, ""⟩
      ⟨2, "startup", "", "", "", false, ""⟩ (by decide) (by decide),
    (arkfilename_lt_strict_order.2.1 ⟨0, "startup", "", "", "", false, ""⟩
      ⟨2, "startup", "", "", "", false, ""⟩ (by decide)).1,
    (arkfilename_lt_strict_order.2.1 ⟨0, "startup", "", "", "", false, ""⟩
      ⟨2, "startup", "", "", "", false, ""⟩ (by decide)).2⟩

/-- C7 counterexample: the parsed filenames `000_and_foo.ark` and
`000_and_bar.ark` (two distinct unrecognised tags, both ranked `-1`)
satisfy none of `x < y`, `x == y`, `y < x`, so "exactly one holds"
fails on the code. -/
theorem arkfilename_trichotomy_counterexample :
    arkfn.Reachable ⟨0, "foo", "", "", "", false, ""⟩ ∧
      arkfn.Reachable ⟨0, "bar", "", "", "", false, ""⟩ ∧
      arkfn.lt ⟨0, "foo", "", "", "", false, ""⟩
        ⟨0, "bar", "", "", "", false, ""⟩ = false ∧
      arkfn.eq ⟨0, "foo", "", "", "", false, ""⟩
        ⟨0, "bar", "", "", "", false, ""⟩ = false ∧
      arkfn.lt ⟨0, "bar", "", "", "", false, ""⟩
        ⟨0, "foo", "", "", "", false, ""⟩ = false := by
  refine ⟨by decide, by decide, ?_, by decide, ?_⟩ <;> decide

/-- Witness for C2 at a concrete input. -/
theorem xxtea_decrypt_encrypt_roundtrip_witness :
    ∃ c, xxtea.encrypt [1, 2, 3, 4, 5, 6, 7, 8] [9, 10, 11, 12] = .ok c ∧
      xxtea.decrypt c [9, 10, 11, 12] = .ok [1, 2, 3, 4, 5, 6, 7, 8] :=
  xxtea_decrypt_encrypt_roundtrip [9, 10, 11, 12] [1, 2, 3, 4, 5, 6, 7, 8]
    (by decide) (by decide) (by decide) (by decide) (by decide)


/-- C4: for every input whose header version word (byte offset 8) lies
outside `{1, 3, 4}`, `ARK._read_header` does fail — but with an
`UnboundLocalError` on the local `header` (raised while formatting the
intended unknown-version `ValueError`'s f-string, which reads
`header.ark_version` before `header` is ever assigned), not with the
`UnsupportedVersion` error the specification prescribes. -/
theorem ark_read_header_unknown_version (file : List Nat)
    (hlen : 12 ≤ file.length)
    (h1 : ark.leU32At file 8 ≠ 1) (h3 : ark.leU32At file 8 ≠ 3)
    (h4 : ark.leU32At file 8 ≠ 4) :
    ark.readHeader file = .error (.unboundLocal "header") := by
  unfold ark.readHeader
  rw [if_neg (by omega), if_neg h1, if_neg (by simp [h3, h4])]

/-- Witness for C4: a 12-byte header whose version field holds 2. -/
theorem ark_read_header_unknown_version_witness :
    ark.readHeader [0, 0, 0, 0, 12, 0, 0, 0, 2, 0, 0, 0] =
      .error (.unboundLocal "header") :=
  ark_read_header_unknown_version _ (by decide) (by decide) (by decide)
    (by decide)

/-- C1: opening any archive whose header parses — well-formed v1/v3/v4
archives included — raises `TypeError` in `_read_metadata`, because
`xxtea.decrypt(metadata, metadata_size // 4, self.KEY)` passes three
positional arguments to `xxtea.decrypt(src, key)`.  The open/write
round trip of the claim therefore fails at `open` itself. -/
theorem ark_read_always_typeerror (file : List Nat) (header : ark.Header)
    (h : ark.readHeader file = .ok header) :
    ark.readArchive file = .error .typeError := by
  unfold ark.readArchive
  rw [h]

/-- Witness for C1: a well-formed empty v1 archive (12-byte header,
`file_count = 0`, `metadata_offset = 12`, empty metadata block). -/
theorem ark_read_always_typeerror_witness :
    ark.readArchive [0, 0, 0, 0, 12, 0, 0, 0, 1, 0, 0, 0] =
      .error .typeError :=
  ark_read_always_typeerror _ ⟨1, 0, 12, -1, []⟩ (by decide)

/-- C9: `read_file` on an entry with `encrypted_size != 0` raises
`TypeError` at the three-argument `xxtea.decrypt` call — neither bytes
nor a warning are produced.  For unencrypted entries the extracted bytes
are always returned, with the integrity warning emitted exactly when the
computed MD5 differs from the recorded `md5sum` and no warning when they
match. -/
theorem ark_read_file_md5_warning :
    (∀ (md5f zlibD : List Nat → List Nat)
        (zstdD : List Nat → Nat → List Nat)
        (version : Nat) (metadata : ark.FileMetadata) (file : List Nat),
      metadata.encrypted_size ≠ 0 →
        ark.getFileData md5f zlibD zstdD version metadata file =
          .error .typeError) ∧
    (∀ (md5f zlibD : List Nat → List Nat)
        (zstdD : List Nat → Nat → List Nat)
        (version : Nat) (metadata : ark.FileMetadata) (file : List Nat),
      metadata.encrypted_size = 0 →
        ∃ warns out,
          ark.getFileData md5f zlibD zstdD version metadata file =
            .ok (warns, out) ∧
          (warns = [] ↔ md5f out.data = metadata.md5sum) ∧
          (warns = [ark.ArkWarning.integrity] ↔
            md5f out.data ≠ metadata.md5sum)) := by
  constructor
  · intro md5f zlibD zstdD version metadata file h
    unfold ark.getFileData
    rw [if_pos h]
  · intro md5f zlibD zstdD version metadata file h
    unfold ark.getFileData
    rw [if_neg (by simp [h])]
    refine ⟨_, _, rfl, ?_, ?_⟩ <;>
      by_cases hmd : md5f ((if metadata.compressed_size ≠
          metadata.original_filesize then
            if version = 1 then
              zlibD ((file.drop metadata.file_location.toNat).take
                (if metadata.encrypted_size ≠ 0 then metadata.encrypted_size
                 else metadata.compressed_size))
            else if 3 ≤ version then
              zstdD ((file.drop metadata.file_location.toNat).take
                (if metadata.encrypted_size ≠ 0 then metadata.encrypted_size
                 else metadata.compressed_size)) metadata.original_filesize
            else (file.drop metadata.file_location.toNat).take
              (if metadata.encrypted_size ≠ 0 then metadata.encrypted_size
               else metadata.compressed_size)
          else (file.drop metadata.file_location.toNat).take
            (if metadata.encrypted_size ≠ 0 then metadata.encrypted_size
             else metadata.compressed_size)).take
          metadata.original_filesize) = metadata.md5sum <;>
      simp [hmd]

/-- Witness for C9: an encrypted entry (errors) and an unencrypted entry
(bytes returned). -/
theorem ark_read_file_md5_warning_witness :
    ark.getFileData (fun _ => []) id (fun b _ => b) 4
        ⟨"a", "p", 0, 4, 4, 8, 0, [], none, none, 0, 4⟩ [] =
      .error .typeError ∧
    ∃ warns out,
      ark.getFileData (fun _ => []) id (fun b _ => b) 4
          ⟨"a", "p", 0, 4, 4, 0, 0, [], none, none, 0, 4⟩ [1, 2, 3, 4] =
        .ok (warns, out) ∧
      (warns = [] ↔ (fun _ => ([] : List Nat)) out.data = []) ∧
      (warns = [ark.ArkWarning.integrity] ↔
        (fun _ => ([] : List Nat)) out.data ≠ []) :=
  ⟨ark_read_file_md5_warning.1 (fun _ => []) id (fun b _ => b) 4
      ⟨"a", "p", 0, 4, 4, 8, 0, [], none, none, 0, 4⟩ [] (by decide),
    ark_read_file_md5_warning.2 (fun _ => []) id (fun b _ => b) 4
      ⟨"a", "p", 0, 4, 4, 0, 0, [], none, none, 0, 4⟩ [1, 2, 3, 4]
      (by decide)⟩

/-- C6: `ARKFile.pack` (invoked by `add_file`) compresses with Zstandard
at level 9 regardless of the archive version — there is no Zlib path in
`pack`, so a file added to a v1 archive with `compressed=True` is
Zstandard-compressed even though `_get_file_data` decompresses v1 entries
with Zlib. -/
theorem ark_add_file_always_zstd :
    ark.addFilePayload 1 ⟨"a.txt", [65], true, false, 0⟩ =
      .zstdCompress 9 (.raw [65]) ∧
    ark.usesZlib (ark.addFilePayload 1 ⟨"a.txt", [65], true, false, 0⟩) =
      false :=
  ⟨rfl, rfl⟩

/-- C5: upserting a path that is not present raises `IndexError` whenever
the directory is empty — `_get_file_block` evaluates `self._files[0]`
(and the append branch `self._files[-1]`) on the empty collection — so
the claim's "or at the header size when the directory is empty" case
(and the empty-v4 `add_file`/`write`/reopen scenario) never happens.
For a non-empty directory sorted by `file_location` the append branch
does place the new payload at
`D.last.file_location + D.last.on_disk_size`. -/
theorem ark_write_file_upsert_append :
    (∀ (st : ark.ARKState) (data : List Nat) (metadata : ark.FileMetadata)
        (file : List Nat), st.files = [] →
      ark.writeFile st data metadata file = .error .indexError) ∧
    (∀ (hdr : ark.Header) (files : List ark.FileMetadata)
        (fb data : List Nat) (metadata : ark.FileMetadata)
        (file : List Nat) (last : ark.FileMetadata),
      ark.sortFiles files = files →
      files.getLast? = some last →
      (∀ f ∈ files, 0 ≤ f.file_location) →
      ¬ files.any (fun f => ark.full_path f = ark.full_path metadata) →
      (ark.headerStructSize hdr.version : Int) ≤
        last.file_location + (ark.actual_size last : Int) →
      ∃ st', ark.writeFile ⟨hdr, files, fb⟩ data metadata file = .ok st' ∧
        st'.files = files ++ [{ metadata with
          file_location := last.file_location +
            (ark.actual_size last : Int) }] ∧
        st'.header.metadata_offset = (last.file_location +
          (ark.actual_size last : Int) +
          (ark.actual_size metadata : Int)).toNat) := by
  constructor
  · intro st data metadata file h
    obtain ⟨hdr, files, fb⟩ := st
    simp only at h
    subst h
    simp [ark.writeFile, ark.getFileBlock, ark.sortFiles, List.insertionSort]
  · intro hdr files fb data metadata file last hsorted hlast hpos hnot hfits
    obtain ⟨first, rest, hcons⟩ : ∃ f r, files = f :: r := by
      cases files with
      | nil => simp at hlast
      | cons f r => exact ⟨f, r, rfl⟩
    subst hcons
    have hfirst : ¬ first.file_location < 0 := by
      have := hpos first (List.mem_cons_self _ _)
      omega
    have hblk : ark.getFileBlock ⟨hdr, first :: rest, fb⟩ file =
        .ok (⟨hdr, first :: rest,
          (file.drop first.file_location.toNat).take hdr.metadata_offset⟩,
          first.file_location.toNat +
            ((file.drop first.file_location.toNat).take
              hdr.metadata_offset).length) := by
      unfold ark.getFileBlock
      simp only [hsorted]
      rw [if_neg hfirst]
    unfold ark.writeFile
    simp only [hsorted]
    rw [hblk]
    by_cases hloc : metadata.file_location < 0
    · simp only [if_pos hloc, hlast, ark.full_path]
      rw [if_pos (by simpa only [ark.full_path] using hnot),
        if_neg (by omega)]
      exact ⟨_, rfl, rfl, rfl⟩
    · simp only [if_neg hloc, hlast, ark.full_path]
      rw [if_pos (by simpa only [ark.full_path] using hnot),
        if_neg (by omega)]
      exact ⟨_, rfl, rfl, rfl⟩

/-- Witness for C5: the empty-v4-archive upsert of the claim raises
`IndexError`, and an append into a one-entry directory lands at
`last.file_location + last.actual_size`. -/
theorem ark_write_file_upsert_append_witness :
    ark.writeFile ⟨⟨4, 0, 32, 0, List.replicate 16 0⟩, [], []⟩
        (List.replicate 100 88)
        ⟨"x", "", -1, 100, 47, 0, 0, [], none, none, 0, 4⟩ [] =
      .error .indexError ∧
    ∃ st', ark.writeFile
        ⟨⟨4, 1, 132, 0, List.replicate 16 0⟩,
          [⟨"a", "", 32, 100, 100, 0, 0, [], none, none, 0, 4⟩], []⟩
        [1] ⟨"b", "", -1, 1, 1, 0, 0, [], none, none, 0, 4⟩
        (List.replicate 232 7) = .ok st' ∧
      st'.files = [⟨"a", "", 32, 100, 100, 0, 0, [], none, none, 0, 4⟩,
        ⟨"b", "", 132, 1, 1, 0, 0, [], none, none, 0, 4⟩] ∧
      st'.header.metadata_offset = 133 :=
  ⟨ark_write_file_upsert_append.1
      ⟨⟨4, 0, 32, 0, List.replicate 16 0⟩, [], []⟩ (List.replicate 100 88)
      ⟨"x", "", -1, 100, 47, 0, 0, [], none, none, 0, 4⟩ [] rfl,
    ark_write_file_upsert_append.2 ⟨4, 1, 132, 0, List.replicate 16 0⟩
      [⟨"a", "", 32, 100, 100, 0, 0, [], none, none, 0, 4⟩] [] [1]
      ⟨"b", "", -1, 1, 1, 0, 0, [], none, none, 0, 4⟩
      (List.replicate 232 7)
      ⟨"a", "", 32, 100, 100, 0, 0, [], none, none, 0, 4⟩
      (by decide) (by decide) (by decide) (by decide) (by decide)⟩

/-- C10: when the input is supplied as `bytes` or an already-open binary
stream, `PVR.read` never consults the filesystem and never attempts the
external-alpha lookup or splice, whatever the `external_alpha` flag —
the result coincides with a read against an empty filesystem with
external alpha disabled.  Only a path-string input triggers the
sibling handling. -/
theorem pvr_no_alpha_for_nonpath_input (fuel : Nat)
    (fs : List (String × List Nat))
    (astcD etc1D : List Nat → Nat → Nat → List Nat) (ea : Bool)
    (b : List Nat) :
    pvr.read fuel fs astcD etc1D ea (.bytesIn b) =
      pvr.read fuel [] astcD etc1D false (.bytesIn b) ∧
    pvr.read fuel fs astcD etc1D ea (.stream b) =
      pvr.read fuel [] astcD etc1D false (.stream b) := by
  cases fuel <;> exact ⟨rfl, rfl⟩

namespace pvr

theorem alphaName_ne_empty (s : String) : alphaName s ≠ "" := by
  unfold alphaName
  intro h
  have hlen := congrArg String.length h
  have h6 : (".alpha" : String).length = 6 := rfl
  simp [String.length_append, h6] at hlen

end pvr

/-- C8 (amended): when the external-alpha sibling exists but decodes to
an image whose dimensions differ from the primary's, `PVR.read` does not
fail — it silently skips the splice and succeeds with the primary image
unchanged (only `alpha_filename` records the sibling); in particular no
`MismatchedAlphaDimensions` error is raised. -/
theorem pvr_mismatched_alpha_skipped (fuel : Nat)
    (fs : List (String × List Nat))
    (astcD etc1D : List Nat → Nat → Nat → List Nat) (s : String)
    (r a : pvr.PVRResult)
    (hprim : pvr.read (fuel + 1) fs astcD etc1D false (.path s) = .ok r)
    (halpha : pvr.read fuel fs astcD etc1D true
      (.path (pvr.alphaName s)) = .ok a)
    (hsib : (fs.lookup (pvr.alphaName s)).isSome = true)
    (hnoalpha : pvr.image_has_alpha r.image = false)
    (hmm : (a.image.width, a.image.height) ≠
      (r.image.width, r.image.height)) :
    pvr.read (fuel + 1) fs astcD etc1D true (.path s) =
      .ok { r with alpha_filename := pvr.alphaName s } := by
  obtain ⟨rh, rf, ra, ri⟩ := r
  simp only [pvr.read] at hprim ⊢
  cases hob : pvr.openBinary fs (.path s) with
  | error e => simp [hob] at hprim
  | ok data =>
  cases hhd : pvr.readHeader data with
  | error e => simp [hob, hhd] at hprim
  | ok header =>
  cases hmd : pvr.readMetadata header data with
  | error e => simp [hob, hhd, hmd] at hprim
  | ok u =>
  cases him : pvr.readImage astcD etc1D header data with
  | error e => simp [hob, hhd, hmd, him] at hprim
  | ok image =>
  simp only [hob, hhd, hmd, him] at hprim ⊢
  rw [if_neg (by simp)] at hprim
  simp only [Except.ok.injEq, pvr.PVRResult.mk.injEq] at hprim
  obtain ⟨e1, e2, e3, e4⟩ := hprim
  subst e1
  subst e2
  subst e3
  subst e4
  dsimp only at hnoalpha hmm
  simp only [hsib, eq_self_iff_true, if_true]
  rw [if_pos ⟨pvr.alphaName_ne_empty s, hnoalpha⟩, halpha]
  dsimp only
  rw [if_neg hmm]

/-- C8 counterexample: `a.pvr` (1×1, no alpha of its own) has the
external-alpha sibling `a.alpha.pvr`, which decodes to a 2×1 image —
mismatched dimensions — yet decoding does not fail with any error:
it succeeds and returns the primary image unchanged. -/
theorem pvr_mismatched_alpha_counterexample :
    pvr.read 1 pvr.fsC8 (fun _ _ _ => []) (fun _ _ _ => []) true
        (.path "a.alpha.pvr") =
      .ok { header := ⟨[80, 86, 82, 3], 0, [114, 103, 98, 97], [8, 8, 8, 8],
              0, 0, 1, 2, 1, 1, 1, 1, 0⟩,
            filename := "a.alpha.pvr", alpha_filename := "",
            image := ⟨2, 1, [0, 0, 0, 255, 0, 0, 0, 255]⟩ } ∧
    pvr.read 2 pvr.fsC8 (fun _ _ _ => []) (fun _ _ _ => []) true
        (.path "a.pvr") =
      .ok { header := ⟨[80, 86, 82, 3], 0, [114, 103, 98, 97], [8, 8, 8, 8],
              0, 0, 1, 1, 1, 1, 1, 1, 0⟩,
            filename := "a.pvr", alpha_filename := "a.alpha.pvr",
            image := ⟨1, 1, [10, 20, 30, 255]⟩ } := by
  constructor <;> decide

/-- Witness for C8 (amended) at the concrete `fsC8` filesystem. -/
theorem pvr_mismatched_alpha_skipped_witness :
    pvr.read 2 pvr.fsC8 (fun _ _ _ => []) (fun _ _ _ => []) true
        (.path "a.pvr") =
      .ok { header := ⟨[80, 86, 82, 3], 0, [114, 103, 98, 97], [8, 8, 8, 8],
              0, 0, 1, 1, 1, 1, 1, 1, 0⟩,
            filename := "a.pvr",
            alpha_filename := pvr.alphaName "a.pvr",
            image := ⟨1, 1, [10, 20, 30, 255]⟩ } :=
  pvr_mismatched_alpha_skipped 1 pvr.fsC8 (fun _ _ _ => []) (fun _ _ _ => [])
    "a.pvr"
    ⟨⟨[80, 86, 82, 3], 0, [114, 103, 98, 97], [8, 8, 8, 8],
        0, 0, 1, 1, 1, 1, 1, 1, 0⟩, "a.pvr", "",
      ⟨1, 1, [10, 20, 30, 255]⟩⟩
    ⟨⟨[80, 86, 82, 3], 0, [114, 103, 98, 97], [8, 8, 8, 8],
        0, 0, 1, 2, 1, 1, 1, 1, 0⟩, "a.alpha.pvr", "",
      ⟨2, 1, [0, 0, 0, 255, 0, 0, 0, 255]⟩⟩
    (by decide) (by decide) (by decide) (by decide) (by decide)
